import Mathlib

/-!
Verification of the genomic coordinate mapping script
(`coordinate_translating.py`).

The file shallowly embeds the program: the CIGAR tokenizer
(`cigar_pttn.findall`), the conversion walk (`get_converted_position`),
the transcript registry loader (`get_transcripts_dict`) and the
query-processing loop of `main`.  Python integers are modelled as `Int`,
segment lengths (decimal digit runs) as `Nat`, fallible steps as
`Except`.  File rows are modelled as lists of already-split column
strings (the split/strip framing is plain I/O).
-/

namespace CoordTrans

/-- Decimal value of a list of digit characters, as Python `int` computes it
on a string of digits (leading zeros allowed). -/
def digitsToNat (cs : List Char) : Nat :=
  cs.foldl (fun acc c => acc * 10 + (c.toNat - 48)) 0

/-- The five operation codes of the pattern `(\d+)([MXDIN])`. -/
def isCigarOp (c : Char) : Bool :=
  c = 'M' || c = 'X' || c = 'D' || c = 'I' || c = 'N'

/-- Fuel-indexed scanner modelling `re.findall` of the compiled pattern
`cigar_pttn = re.compile(r'(\d+)([MXDIN])')`: left-to-right, non-overlapping,
leftmost matches; a maximal digit run must be immediately followed by one of
the five operation letters, otherwise scanning resumes one character later
(equivalently, at the first non-digit character).  Non-matching characters
are skipped.  Fuel at least the length of the list makes the scan complete. -/
def cigar_findallAux : Nat → List Char → List (List Char × Char)
  | 0, _ => []
  | _ + 1, [] => []
  | fuel + 1, c :: rest =>
    if c.isDigit then
      match (c :: rest).dropWhile Char.isDigit with
      | [] => []
      | op :: r3 =>
        if isCigarOp op then
          ((c :: rest).takeWhile Char.isDigit, op) :: cigar_findallAux fuel r3
        else
          cigar_findallAux fuel (op :: r3)
    else
      cigar_findallAux fuel rest

/-- The scan at its canonical fuel (the length of the list), on which the
fuel always suffices. -/
def cigar_findallL (l : List Char) : List (List Char × Char) :=
  cigar_findallAux l.length l

/-- `cigar_pttn.findall(s)`: all `(digit-run, operation-letter)` capture
pairs of the pattern, scanned left to right. -/
def cigar_findall (s : String) : List (List Char × Char) :=
  cigar_findallL s.data

/-- The loop of `get_converted_position`: walk the parsed segments,
incrementing the genomic and transcript positions until the requested
position is reached in the starting coordinate system.  Returns the final
`(genomic_pos, transcript_pos)` pair.  Mirrors the source line by line:
the early-exit `break` returns the current pair; `M`/`X` advance both sides
by `min(segment_length, requested_pos - current_pos_of_interest)`; `D`/`N`
advance only the genomic side by the full length; `I` advances only the
transcript side by the full length; any other operation (unreachable from
the tokenizer) falls through with no change, like Python's `elif` chain. -/
def convertLoop : List (Nat × Char) → Int → Bool → Int → Int → Int × Int
  | [], _, _, genomic_pos, transcript_pos => (genomic_pos, transcript_pos)
  | (segment_length, cigar_type) :: rest, requested_pos, start_from_genomic,
      genomic_pos, transcript_pos =>
    let current_pos_of_interest :=
      if start_from_genomic then genomic_pos else transcript_pos
    if current_pos_of_interest ≥ requested_pos then
      (genomic_pos, transcript_pos)
    else if cigar_type = 'M' ∨ cigar_type = 'X' then
      let bases_into_cigar :=
        min (segment_length : Int) (requested_pos - current_pos_of_interest)
      convertLoop rest requested_pos start_from_genomic
        (genomic_pos + bases_into_cigar) (transcript_pos + bases_into_cigar)
    else if cigar_type = 'D' ∨ cigar_type = 'N' then
      convertLoop rest requested_pos start_from_genomic
        (genomic_pos + segment_length) transcript_pos
    else if cigar_type = 'I' then
      convertLoop rest requested_pos start_from_genomic
        genomic_pos (transcript_pos + segment_length)
    else
      convertLoop rest requested_pos start_from_genomic
        genomic_pos transcript_pos

/-- One entry of the transcripts dictionary:
`{'chrom': ..., 'start': ..., 'cigar': ..., 'orientation': ...}`.
`orientation` is kept as the raw string, as in the source. -/
structure TranscriptInfo where
  chrom : String
  start : Int
  cigar : String
  orientation : String
deriving DecidableEq, Repr

/-- The parsed, orientation-adjusted segment list used by the walk:
`parsed_cigar = cigar_pttn.findall(cigar)`, each length converted with
`int(...)`, reversed when `orientation == 'reverse'`. -/
def orientedSegs (cigar orientation : String) : List (Nat × Char) :=
  let parsed := (cigar_findall cigar).map fun t => (digitsToNat t.1, t.2)
  if orientation = "reverse" then parsed.reverse else parsed

/-- `get_converted_position(transcript_info, requested_pos, start_from_genomic)`:
convert a requested position in one coordinate system to the corresponding
position in the opposite coordinate system. -/
def get_converted_position (transcript_info : TranscriptInfo)
    (requested_pos : Int) (start_from_genomic : Bool) : Int :=
  let r := convertLoop (orientedSegs transcript_info.cigar transcript_info.orientation)
    requested_pos start_from_genomic transcript_info.start 0
  if start_from_genomic then r.2 else r.1

/-- Python `int(s)` on a column string, restricted to an optional sign
followed by decimal digits (the only shapes the program's inputs exercise);
`none` models the `ValueError` branch. -/
def pyInt? (s : String) : Option Int :=
  match s.data with
  | [] => none
  | '-' :: rest =>
    if rest ≠ [] ∧ rest.all Char.isDigit then some (-(digitsToNat rest : Int)) else none
  | '+' :: rest =>
    if rest ≠ [] ∧ rest.all Char.isDigit then some (digitsToNat rest) else none
  | l => if l.all Char.isDigit then some (digitsToNat l) else none

/-- The distinct raise sites of `get_transcripts_dict`, one constructor per
`raise` statement (wrong column count, bad orientation string, non-integer
start, repeated transcript name). -/
inductive LoadError
  | malformedTranscriptRow (ncols : Nat)
  | invalidOrientation (s : String)
  | invalidStart (s : String)
  | duplicateTranscript
deriving DecidableEq, Repr

/-- The distinct raise sites of the query loop in `main` (wrong column
count, non-integer requested position, name absent from the registry). -/
inductive QueryError
  | malformedQueryRow (ncols : Nat)
  | invalidRequestedPosition (s : String)
  | unknownTranscript (name : String)
deriving DecidableEq, Repr

/-- The transcripts dictionary, modelled as an insertion-ordered
association list (Python dicts preserve insertion order and the
duplicate check keeps keys unique). -/
def Registry := List (String × TranscriptInfo)

/-- Body of the row loop of `get_transcripts_dict`: validate the column
count, the orientation (5-column form only), the integer start and the
uniqueness of the name — in source order — then insert the entry. -/
def loadRow (transcripts : List (String × TranscriptInfo)) (cols : List String) :
    Except LoadError (List (String × TranscriptInfo)) :=
  match cols with
  | [transcript_name, chrom, startStr, cigar] =>
    match pyInt? startStr with
    | none => .error (.invalidStart startStr)
    | some start =>
      if transcripts.any fun t => t.1 = transcript_name then
        .error .duplicateTranscript
      else
        .ok (transcripts ++ [(transcript_name, ⟨chrom, start, cigar, "forward"⟩)])
  | [transcript_name, chrom, startStr, cigar, orientation] =>
    if orientation ≠ "forward" ∧ orientation ≠ "reverse" then
      .error (.invalidOrientation orientation)
    else
      match pyInt? startStr with
      | none => .error (.invalidStart startStr)
      | some start =>
        if transcripts.any fun t => t.1 = transcript_name then
          .error .duplicateTranscript
        else
          .ok (transcripts ++ [(transcript_name, ⟨chrom, start, cigar, orientation⟩)])
  | _ => .error (.malformedTranscriptRow cols.length)

/-- `get_transcripts_dict`: fold the rows through `loadRow`, aborting on
the first error (a raised exception ends the whole load). -/
def get_transcripts_dict (transcripts : List (String × TranscriptInfo)) :
    List (List String) → Except LoadError (List (String × TranscriptInfo))
  | [] => .ok transcripts
  | row :: rest =>
    match loadRow transcripts row with
    | .error e => .error e
    | .ok t2 => get_transcripts_dict t2 rest

/-- Body of the query loop of `main` for one row: validate the column
count, parse the requested position as an integer, look the transcript up
(`transcripts.get`), then convert.  The output row is the query columns
followed by the chromosome and the converted position. -/
def processQuery (transcripts : List (String × TranscriptInfo))
    (start_from_genomic : Bool) (cols : List String) :
    Except QueryError (List String × String × Int) :=
  match cols with
  | [transcript_name, posStr] =>
    match pyInt? posStr with
    | none => .error (.invalidRequestedPosition posStr)
    | some requested_pos =>
      match transcripts.find? (fun t => t.1 = transcript_name) with
      | none => .error (.unknownTranscript transcript_name)
      | some t =>
        .ok (cols, t.2.chrom, get_converted_position t.2 requested_pos start_from_genomic)
  | _ => .error (.malformedQueryRow cols.length)

/-- The query loop of `main`: process rows in order, aborting the run on
the first error (fail-fast, no row is skipped or downgraded). -/
def processQueries (transcripts : List (String × TranscriptInfo))
    (start_from_genomic : Bool) :
    List (List String) → Except QueryError (List (List String × String × Int))
  | [] => .ok []
  | row :: rest =>
    match processQuery transcripts start_from_genomic row with
    | .error e => .error e
    | .ok out =>
      match processQueries transcripts start_from_genomic rest with
      | .error e => .error e
      | .ok outs => .ok (out :: outs)

/-- Contribution of one segment to the source-side coordinate of the walk:
`M`/`X` always advance the source side by the segment length; `D`/`N` advance
it only when the source side is genomic; `I` only when it is the transcript
side; unrecognized operations contribute nothing. -/
def srcContribution (start_from_genomic : Bool) (seg : Nat × Char) : Int :=
  if seg.2 = 'M' ∨ seg.2 = 'X' then (seg.1 : Int)
  else if seg.2 = 'D' ∨ seg.2 = 'N' then (if start_from_genomic then (seg.1 : Int) else 0)
  else if seg.2 = 'I' then (if start_from_genomic then 0 else (seg.1 : Int))
  else 0

/-- Total source-coordinate length of a segment list: how far the position
of interest moves when every segment is consumed in full. -/
def srcLen (start_from_genomic : Bool) (segs : List (Nat × Char)) : Int :=
  (segs.map (srcContribution start_from_genomic)).sum

/-- The fully-accumulated pair of positions: every segment consumed in full,
with no early exit and no clamping. -/
def accumAll : List (Nat × Char) → Int → Int → Int × Int
  | [], genomic_pos, transcript_pos => (genomic_pos, transcript_pos)
  | (segment_length, cigar_type) :: rest, genomic_pos, transcript_pos =>
    if cigar_type = 'M' ∨ cigar_type = 'X' then
      accumAll rest (genomic_pos + segment_length) (transcript_pos + segment_length)
    else if cigar_type = 'D' ∨ cigar_type = 'N' then
      accumAll rest (genomic_pos + segment_length) transcript_pos
    else if cigar_type = 'I' then
      accumAll rest genomic_pos (transcript_pos + segment_length)
    else
      accumAll rest genomic_pos transcript_pos

/-- Concatenation of the digit runs and operation letters of a token list,
i.e. the canonical string every token list parses from. -/
def renderTokens : List (List Char × Char) → List Char
  | [] => []
  | (ds, op) :: rest => ds ++ op :: renderTokens rest

/-- Adding the same amount to both coordinates adds it to the position of
interest, whichever side is selected. -/
theorem src_add (sfg : Bool) (g t b : Int) :
    (if sfg then g + b else t + b) = (if sfg then g else t) + b := by
  cases sfg <;> simp

/-- When the position of interest already meets the requested position (or
there are no segments left), the loop leaves both positions unchanged. -/
theorem convertLoop_stop (segs : List (Nat × Char)) (p : Int) (sfg : Bool)
    (g t : Int) (h : (if sfg then g else t) ≥ p) :
    convertLoop segs p sfg g t = (g, t) := by
  cases segs with
  | nil => rfl
  | cons hd tl =>
    obtain ⟨len, op⟩ := hd
    simp only [convertLoop]
    rw [if_pos h]

/-- The walk never decreases either position: every branch of the loop adds
a non-negative amount to each side. -/
theorem convertLoop_le_result (segs : List (Nat × Char)) (p : Int) (sfg : Bool) :
    ∀ g t : Int,
      g ≤ (convertLoop segs p sfg g t).1 ∧ t ≤ (convertLoop segs p sfg g t).2 := by
  induction segs with
  | nil => intro g t; exact ⟨le_refl g, le_refl t⟩
  | cons hd tl ih =>
    obtain ⟨len, op⟩ := hd
    intro g t
    simp only [convertLoop]
    by_cases hguard : (if sfg then g else t) ≥ p
    · rw [if_pos hguard]
      exact ⟨le_refl g, le_refl t⟩
    · rw [if_neg hguard]
      by_cases hmx : op = 'M' ∨ op = 'X'
      · rw [if_pos hmx]
        have hb : 0 ≤ min (len : Int) (p - (if sfg then g else t)) :=
          le_min (Int.ofNat_nonneg len) (by omega)
        obtain ⟨h1, h2⟩ := ih (g + min (len : Int) (p - (if sfg then g else t)))
          (t + min (len : Int) (p - (if sfg then g else t)))
        exact ⟨le_trans (by omega) h1, le_trans (by omega) h2⟩
      · rw [if_neg hmx]
        by_cases hdn : op = 'D' ∨ op = 'N'
        · rw [if_pos hdn]
          obtain ⟨h1, h2⟩ := ih (g + (len : Int)) t
          exact ⟨le_trans (by omega) h1, h2⟩
        · rw [if_neg hdn]
          by_cases hi : op = 'I'
          · rw [if_pos hi]
            obtain ⟨h1, h2⟩ := ih g (t + (len : Int))
            exact ⟨h1, le_trans (by omega) h2⟩
          · rw [if_neg hi]
            exact ih g t

/-- In the transcript-to-genomic direction the genomic position is a pure
accumulator: translating its start translates the result, while the
transcript side is unaffected. -/
theorem convertLoop_genomic_shift (segs : List (Nat × Char)) (p : Int) :
    ∀ g t d : Int,
      convertLoop segs p false (g + d) t =
        ((convertLoop segs p false g t).1 + d, (convertLoop segs p false g t).2) := by
  induction segs with
  | nil => intro g t d; rfl
  | cons hd tl ih =>
    obtain ⟨len, op⟩ := hd
    intro g t d
    simp only [convertLoop, Bool.false_eq_true, if_false]
    by_cases hguard : t ≥ p
    · rw [if_pos hguard, if_pos hguard]
    · rw [if_neg hguard, if_neg hguard]
      by_cases hmx : op = 'M' ∨ op = 'X'
      · rw [if_pos hmx, if_pos hmx]
        rw [show g + d + min (len : Int) (p - t) = g + min (len : Int) (p - t) + d by ring]
        exact ih (g + min (len : Int) (p - t)) (t + min (len : Int) (p - t)) d
      · rw [if_neg hmx, if_neg hmx]
        by_cases hdn : op = 'D' ∨ op = 'N'
        · rw [if_pos hdn, if_pos hdn]
          rw [show g + d + (len : Int) = g + (len : Int) + d by ring]
          exact ih (g + (len : Int)) t d
        · rw [if_neg hdn, if_neg hdn]
          by_cases hi : op = 'I'
          · rw [if_pos hi, if_pos hi]
            exact ih g (t + (len : Int)) d
          · rw [if_neg hi, if_neg hi]
            exact ih g t d

/-- Monotonicity of the walk in the requested position, componentwise, from
a common starting state. -/
theorem convertLoop_mono (segs : List (Nat × Char)) (sfg : Bool) :
    ∀ g t p1 p2 : Int, p1 ≤ p2 →
      (convertLoop segs p1 sfg g t).1 ≤ (convertLoop segs p2 sfg g t).1 ∧
      (convertLoop segs p1 sfg g t).2 ≤ (convertLoop segs p2 sfg g t).2 := by
  induction segs with
  | nil => intro g t p1 p2 _; exact ⟨le_refl g, le_refl t⟩
  | cons hd tl ih =>
    obtain ⟨len, op⟩ := hd
    intro g t p1 p2 hp
    by_cases h2 : (if sfg then g else t) ≥ p2
    · rw [convertLoop_stop _ p1 sfg g t (le_trans hp h2),
        convertLoop_stop _ p2 sfg g t h2]
      exact ⟨le_refl g, le_refl t⟩
    · by_cases h1 : (if sfg then g else t) ≥ p1
      · rw [convertLoop_stop _ p1 sfg g t h1]
        exact convertLoop_le_result _ p2 sfg g t
      · simp only [convertLoop]
        rw [if_neg h1, if_neg h2]
        by_cases hmx : op = 'M' ∨ op = 'X'
        · rw [if_pos hmx, if_pos hmx]
          by_cases hbeq :
              min (len : Int) (p1 - (if sfg then g else t)) =
              min (len : Int) (p2 - (if sfg then g else t))
          · rw [hbeq]
            exact ih _ _ p1 p2 hp
          · have hb1 : min (len : Int) (p1 - (if sfg then g else t)) =
                p1 - (if sfg then g else t) := by
              rcases le_total (len : Int) (p1 - (if sfg then g else t)) with h | h
              · exfalso
                apply hbeq
                rw [min_eq_left h, min_eq_left (by omega)]
              · exact min_eq_right h
            have hb12 : min (len : Int) (p1 - (if sfg then g else t)) ≤
                min (len : Int) (p2 - (if sfg then g else t)) :=
              min_le_min (le_refl _) (by omega)
            rw [convertLoop_stop tl p1 sfg _ _ (by rw [src_add]; omega)]
            obtain ⟨hr1, hr2⟩ := convertLoop_le_result tl p2 sfg
              (g + min (len : Int) (p2 - (if sfg then g else t)))
              (t + min (len : Int) (p2 - (if sfg then g else t)))
            exact ⟨le_trans (by omega) hr1, le_trans (by omega) hr2⟩
        · rw [if_neg hmx, if_neg hmx]
          by_cases hdn : op = 'D' ∨ op = 'N'
          · rw [if_pos hdn, if_pos hdn]
            exact ih _ _ p1 p2 hp
          · rw [if_neg hdn, if_neg hdn]
            by_cases hi : op = 'I'
            · rw [if_pos hi, if_pos hi]
              exact ih _ _ p1 p2 hp
            · rw [if_neg hi, if_neg hi]
              exact ih _ _ p1 p2 hp

/-- Each segment contributes a non-negative amount to the source side. -/
theorem srcContribution_nonneg (sfg : Bool) (seg : Nat × Char) :
    0 ≤ srcContribution sfg seg := by
  obtain ⟨len, op⟩ := seg
  simp only [srcContribution]
  split
  · exact Int.ofNat_nonneg len
  · split
    · cases sfg <;> simp
    · split
      · cases sfg <;> simp
      · exact le_refl 0

/-- The total source-coordinate length is non-negative. -/
theorem srcLen_nonneg (sfg : Bool) (segs : List (Nat × Char)) :
    0 ≤ srcLen sfg segs := by
  induction segs with
  | nil => simp [srcLen]
  | cons hd tl ih =>
    have := srcContribution_nonneg sfg hd
    simp only [srcLen, List.map_cons, List.sum_cons]
    simp only [srcLen] at ih
    omega

/-- Clamp by exhaustion: when the requested position lies strictly beyond
the source-side end of the walk, the early-exit check never fires, every
`M`/`X` advance is unclamped, and the loop consumes every segment, returning
the fully-accumulated pair. -/
theorem convertLoop_exhaust (segs : List (Nat × Char)) (sfg : Bool) :
    ∀ g t p : Int, (if sfg then g else t) + srcLen sfg segs < p →
      convertLoop segs p sfg g t = accumAll segs g t := by
  induction segs with
  | nil => intro g t p _; rfl
  | cons hd tl ih =>
    obtain ⟨len, op⟩ := hd
    intro g t p hp
    have htl : 0 ≤ srcLen sfg tl := srcLen_nonneg sfg tl
    have hhd : 0 ≤ srcContribution sfg (len, op) := srcContribution_nonneg sfg (len, op)
    have hsum : srcLen sfg ((len, op) :: tl) =
        srcContribution sfg (len, op) + srcLen sfg tl := by
      simp [srcLen]
    rw [hsum] at hp
    have hguard : ¬((if sfg then g else t) ≥ p) := by omega
    simp only [convertLoop, accumAll]
    rw [if_neg hguard]
    by_cases hmx : op = 'M' ∨ op = 'X'
    · rw [if_pos hmx, if_pos hmx]
      have hc : srcContribution sfg (len, op) = (len : Int) := by
        simp [srcContribution, hmx]
      have hmin : min (len : Int) (p - (if sfg then g else t)) = (len : Int) :=
        min_eq_left (by omega)
      rw [hmin]
      apply ih
      rw [src_add]
      omega
    · rw [if_neg hmx, if_neg hmx]
      by_cases hdn : op = 'D' ∨ op = 'N'
      · rw [if_pos hdn, if_pos hdn]
        have hc : srcContribution sfg (len, op) =
            (if sfg then (len : Int) else 0) := by
          have : ¬(op = 'M' ∨ op = 'X') := hmx
          simp [srcContribution, hdn, this]
        apply ih
        cases sfg <;> simp_all
        all_goals omega
      · rw [if_neg hdn, if_neg hdn]
        by_cases hi : op = 'I'
        · rw [if_pos hi, if_pos hi]
          have hc : srcContribution sfg (len, op) =
              (if sfg then 0 else (len : Int)) := by
            simp [srcContribution, hmx, hdn, hi]
          apply ih
          cases sfg <;> simp_all
          all_goals omega
        · rw [if_neg hi, if_neg hi]
          have hc : srcContribution sfg (len, op) = 0 := by
            simp [srcContribution, hmx, hdn, hi]
          apply ih
          cases sfg <;> simp_all

/-- None of the five operation letters is a digit. -/
theorem isCigarOp_not_digit {c : Char} (h : isCigarOp c = true) :
    c.isDigit = false := by
  simp only [isCigarOp, Bool.or_eq_true, decide_eq_true_eq] at h
  rcases h with ((((h | h) | h) | h) | h) <;> subst h <;> decide

/-- The scanner's fuel is irrelevant once it covers the length of the
input: any two sufficient fuels give the same token list. -/
theorem cigar_findallAux_congr :
    ∀ (n f f' : Nat) (l : List Char), l.length ≤ n → l.length ≤ f → l.length ≤ f' →
      cigar_findallAux f l = cigar_findallAux f' l := by
  intro n
  induction n with
  | zero =>
    intro f f' l hn _ _
    have hl : l = [] := List.length_eq_zero.mp (Nat.le_antisymm hn (Nat.zero_le _))
    subst hl
    cases f <;> cases f' <;> rfl
  | succ n ih =>
    intro f f' l hn hf hf'
    cases l with
    | nil => cases f <;> cases f' <;> rfl
    | cons c rest =>
      cases f with
      | zero => simp at hf
      | succ fg =>
        cases f' with
        | zero => simp at hf'
        | succ fg' =>
          simp only [List.length_cons, Nat.add_le_add_iff_right] at hn hf hf'
          simp only [cigar_findallAux]
          by_cases hd : c.isDigit = true
          · rw [if_pos hd, if_pos hd]
            rcases hdw : (c :: rest).dropWhile Char.isDigit with _ | ⟨op, r3⟩
            · rfl
            · have hlen : (op :: r3).length ≤ rest.length := by
                rw [List.dropWhile_cons_of_pos hd] at hdw
                have h2 := (List.dropWhile_sublist (l := rest) Char.isDigit).length_le
                rw [hdw] at h2
                exact h2
              simp only [List.length_cons] at hlen
              dsimp only
              by_cases hop : isCigarOp op = true
              · rw [if_pos hop, if_pos hop]
                exact congrArg _ (ih fg fg' r3 (by omega) (by omega) (by omega))
              · rw [if_neg hop, if_neg hop]
                exact ih fg fg' (op :: r3) (by simp; omega) (by simp; omega)
                  (by simp; omega)
          · rw [if_neg hd, if_neg hd]
            exact ih fg fg' rest hn hf hf'

/-- Dropping a satisfying prefix passes through an all-satisfying block. -/
theorem dropWhile_append_of_all {α : Type} {p : α → Bool} :
    ∀ (l1 l2 : List α), (∀ c ∈ l1, p c = true) →
      (l1 ++ l2).dropWhile p = l2.dropWhile p := by
  intro l1
  induction l1 with
  | nil => intro l2 _; rfl
  | cons a l ih =>
    intro l2 h
    rw [List.cons_append, List.dropWhile_cons_of_pos (h a (by simp))]
    exact ih l2 fun c hc => h c (by simp [hc])

/-- Taking a satisfying prefix keeps an all-satisfying block whole. -/
theorem takeWhile_append_of_all {α : Type} {p : α → Bool} :
    ∀ (l1 l2 : List α), (∀ c ∈ l1, p c = true) →
      (l1 ++ l2).takeWhile p = l1 ++ l2.takeWhile p := by
  intro l1
  induction l1 with
  | nil => intro l2 _; rfl
  | cons a l ih =>
    intro l2 h
    rw [List.cons_append, List.takeWhile_cons_of_pos (h a (by simp)),
      ih l2 fun c hc => h c (by simp [hc])]
    rfl

/-- One pattern occurrence at the front of the input produces exactly its
token and leaves the scan at the remainder. -/
theorem cigar_findallL_token (ds : List Char) (op : Char) (R : List Char)
    (hds : ds ≠ []) (hdig : ∀ c ∈ ds, c.isDigit = true)
    (hop : isCigarOp op = true) :
    cigar_findallL (ds ++ op :: R) = (ds, op) :: cigar_findallL R := by
  cases ds with
  | nil => exact absurd rfl hds
  | cons d0 dtl =>
    have hd0 : d0.isDigit = true := hdig d0 (by simp)
    have hdtl : ∀ c ∈ dtl, c.isDigit = true := fun c hc => hdig c (by simp [hc])
    have hopd : op.isDigit = false := isCigarOp_not_digit hop
    show cigar_findallAux ((d0 :: dtl) ++ op :: R).length ((d0 :: dtl) ++ op :: R) =
      (d0 :: dtl, op) :: cigar_findallL R
    rw [List.cons_append, List.length_cons]
    simp only [cigar_findallAux]
    rw [if_pos hd0]
    have hdrop : (d0 :: (dtl ++ op :: R)).dropWhile Char.isDigit = op :: R := by
      rw [List.dropWhile_cons_of_pos hd0, dropWhile_append_of_all dtl _ hdtl,
        List.dropWhile_cons_of_neg (by simp [hopd])]
    have htake : (d0 :: (dtl ++ op :: R)).takeWhile Char.isDigit = d0 :: dtl := by
      rw [List.takeWhile_cons_of_pos hd0, takeWhile_append_of_all dtl _ hdtl,
        List.takeWhile_cons_of_neg (by simp [hopd])]
      simp
    rw [hdrop]
    simp only [if_pos hop, htake]
    refine congrArg _ ?_
    exact cigar_findallAux_congr (dtl ++ op :: R).length _ _ R
      (by simp; omega) (by simp; omega) (le_refl _)

/-- A leading non-digit character is skipped by the scan. -/
theorem cigar_findallL_skip (c : Char) (l : List Char) (h : c.isDigit = false) :
    cigar_findallL (c :: l) = cigar_findallL l := by
  show cigar_findallAux (c :: l).length (c :: l) = cigar_findallL l
  rw [List.length_cons]
  simp only [cigar_findallAux]
  rw [if_neg (by simp [h])]
  rfl

/-- Exact extraction: the canonical rendering of well-formed tokens
(non-empty digit runs, recognized operation letters) parses back to exactly
those tokens. -/
theorem cigar_findallL_renderTokens :
    ∀ toks : List (List Char × Char),
      (∀ tk ∈ toks, tk.1 ≠ [] ∧ (∀ c ∈ tk.1, c.isDigit = true) ∧ isCigarOp tk.2 = true) →
      cigar_findallL (renderTokens toks) = toks := by
  intro toks
  induction toks with
  | nil => intro _; rfl
  | cons hd tl ih =>
    obtain ⟨ds, op⟩ := hd
    intro h
    obtain ⟨h1, h2, h3⟩ := h (ds, op) (by simp)
    rw [renderTokens, cigar_findallL_token ds op (renderTokens tl) h1 h2 h3]
    exact congrArg _ (ih fun tk htk => h tk (by simp [htk]))

/-- A block of non-digit characters in front of the input is silently
excluded: it contributes no token and does not disturb the rest of the
scan. -/
theorem cigar_findallL_junk :
    ∀ junk l : List Char, (∀ c ∈ junk, c.isDigit = false) →
      cigar_findallL (junk ++ l) = cigar_findallL l := by
  intro junk
  induction junk with
  | nil => intro l _; rfl
  | cons c js ih =>
    intro l h
    rw [List.cons_append, cigar_findallL_skip c (js ++ l) (h c (by simp))]
    exact ih l fun d hd => h d (by simp [hd])

/-- A load failure on a row prefix persists whatever rows follow: the first
raised error aborts the whole load. -/
theorem get_transcripts_dict_failfast :
    ∀ (rows rest : List (List String)) (acc : List (String × TranscriptInfo))
      (e : LoadError),
      get_transcripts_dict acc rows = .error e →
      get_transcripts_dict acc (rows ++ rest) = .error e := by
  intro rows
  induction rows with
  | nil =>
    intro rest acc e h
    simp [get_transcripts_dict] at h
  | cons row rows ih =>
    intro rest acc e h
    rw [List.cons_append]
    cases hlr : loadRow acc row with
    | error e2 =>
      simp only [get_transcripts_dict, hlr] at h ⊢
      exact h
    | ok acc2 =>
      simp only [get_transcripts_dict, hlr] at h ⊢
      exact ih rest acc2 e h

/-- A query failure on a row prefix persists whatever rows follow: the
first raised error aborts the whole run. -/
theorem processQueries_failfast :
    ∀ (rows rest : List (List String)) (tds : List (String × TranscriptInfo))
      (sfg : Bool) (e : QueryError),
      processQueries tds sfg rows = .error e →
      processQueries tds sfg (rows ++ rest) = .error e := by
  intro rows
  induction rows with
  | nil =>
    intro rest tds sfg e h
    simp [processQueries] at h
  | cons row rows ih =>
    intro rest tds sfg e h
    rw [List.cons_append]
    cases hq : processQuery tds sfg row with
    | error e2 =>
      simp only [processQueries, hq] at h ⊢
      exact h
    | ok out =>
      simp only [processQueries, hq] at h ⊢
      cases hrest : processQueries tds sfg rows with
      | error e2 =>
        simp only [hrest] at h
        rw [ih rest tds sfg e2 hrest]
        exact h
      | ok outs =>
        simp only [hrest] at h
        exact absurd h (by simp)

/-- In the transcript-to-genomic direction the genomic start is a pure
offset: the result for a given start is the result for start 0 plus that
start. -/
theorem get_converted_position_shift (info : TranscriptInfo) (p : Int) :
    get_converted_position info p false =
      get_converted_position ⟨info.chrom, 0, info.cigar, info.orientation⟩ p false
        + info.start := by
  simp only [get_converted_position, Bool.false_eq_true, if_false]
  have h := convertLoop_genomic_shift (orientedSegs info.cigar info.orientation) p 0 0
    info.start
  rw [zero_add] at h
  rw [h]

/-- C1: for the all-Match alignment "10M" with genomic start 100 and
forward strand, transcript position 5 converts to genomic position 105, and
genomic position 105 converts back to transcript position 5: an exact
round-trip. -/
theorem claim_C1 :
    get_converted_position ⟨"chr1", 100, "10M", "forward"⟩ 5 false = 105 ∧
    get_converted_position ⟨"chr1", 100, "10M", "forward"⟩ 105 true = 5 := by
  decide

/-- C2: for "5M3D5M" with start 0, forward, transcript to genomic:
requested position 5 gives genomic position 5 (the deletion advances only
the genomic side and is skipped by the early exit), and requested position
6 gives genomic position 9 (5 matched, 3 deleted, 1 into the second match
block). -/
theorem claim_C2 :
    get_converted_position ⟨"chr1", 0, "5M3D5M", "forward"⟩ 5 false = 5 ∧
    get_converted_position ⟨"chr1", 0, "5M3D5M", "forward"⟩ 6 false = 9 := by
  decide

/-- C3: for "5M3I5M" with start 0, forward, transcript to genomic:
requested position 6 (inside the insertion) gives genomic position 5, and
the boundary position 5 (where the early exit fires at equality) also gives
genomic position 5; and in general an insertion step leaves the genomic
position untouched, advancing only the transcript side. -/
theorem claim_C3 :
    get_converted_position ⟨"chr1", 0, "5M3I5M", "forward"⟩ 6 false = 5 ∧
    get_converted_position ⟨"chr1", 0, "5M3I5M", "forward"⟩ 5 false = 5 ∧
    (∀ (len : Nat) (rest : List (Nat × Char)) (p g t : Int), t < p →
      convertLoop ((len, 'I') :: rest) p false g t =
        convertLoop rest p false g (t + (len : Int))) := by
  refine ⟨by decide, by decide, ?_⟩
  intro len rest p g t ht
  simp only [convertLoop, Bool.false_eq_true, if_false]
  rw [if_neg (by omega)]
  simp

/-- Witness for C3's insertion-step conjunct at a concrete input. -/
theorem claim_C3_witness :
    convertLoop [(3, 'I')] 6 false 5 5 = convertLoop [] 6 false 5 (5 + (3 : Int)) :=
  claim_C3.2.2 3 [] 6 5 5 (by decide)

/-- C4: for a fixed transcript and direction, the converted position is
monotonically non-decreasing in the requested position. -/
theorem claim_C4 (info : TranscriptInfo) (sfg : Bool) (p1 p2 : Int) (h : p1 ≤ p2) :
    get_converted_position info p1 sfg ≤ get_converted_position info p2 sfg := by
  simp only [get_converted_position]
  obtain ⟨h1, h2⟩ :=
    convertLoop_mono (orientedSegs info.cigar info.orientation) sfg info.start 0 p1 p2 h
  cases sfg
  · simpa using h1
  · simpa using h2

/-- Witness for C4 at a concrete transcript and pair of positions. -/
theorem claim_C4_witness :
    get_converted_position ⟨"chr1", 100, "10M", "forward"⟩ 3 false ≤
      get_converted_position ⟨"chr1", 100, "10M", "forward"⟩ 5 false :=
  claim_C4 ⟨"chr1", 100, "10M", "forward"⟩ false 3 5 (by decide)

/-- C5 counterexample: at transcript position 7, reverse and forward
orientation of the raw string "4M2D6M" give the SAME genomic position
(both 9 with start 0), contradicting the claimed inequality: position 7
lies past the deletion under both traversal orders. -/
theorem claim_C5_counterexample :
    get_converted_position ⟨"chr1", 0, "4M2D6M", "reverse"⟩ 7 false =
      get_converted_position ⟨"chr1", 0, "4M2D6M", "forward"⟩ 7 false := by
  decide

/-- C5 (amended): reverse strand walks the raw string "4M2D6M" exactly as
the forward walk of "6M2D4M" with the same genomic start (segment-order
reversal only, start unadjusted), and order sensitivity shows at transcript
position 5, where reverse and forward orientation of the same raw string
give different genomic positions for every start. -/
theorem claim_C5 :
    (∀ (s p : Int) (b : Bool),
      get_converted_position ⟨"chr1", s, "4M2D6M", "reverse"⟩ p b =
        get_converted_position ⟨"chr1", s, "6M2D4M", "forward"⟩ p b) ∧
    (∀ s : Int,
      get_converted_position ⟨"chr1", s, "4M2D6M", "reverse"⟩ 5 false ≠
        get_converted_position ⟨"chr1", s, "4M2D6M", "forward"⟩ 5 false) := by
  constructor
  · intro s p b
    simp only [get_converted_position]
    rw [show orientedSegs "4M2D6M" "reverse" = orientedSegs "6M2D4M" "forward" from
      by decide]
  · intro s
    rw [get_converted_position_shift ⟨"chr1", s, "4M2D6M", "reverse"⟩ 5,
      get_converted_position_shift ⟨"chr1", s, "4M2D6M", "forward"⟩ 5]
    have h1 : get_converted_position ⟨"chr1", 0, "4M2D6M", "reverse"⟩ 5 false = 5 := by
      decide
    have h2 : get_converted_position ⟨"chr1", 0, "4M2D6M", "forward"⟩ 5 false = 7 := by
      decide
    rw [h1, h2]
    dsimp only
    omega

/-- C6: a Deletion or Gap segment reached in the genomic-to-transcript
direction with the genomic position strictly below the requested position
adds the full segment length unconditionally (no clamping), even when the
requested position falls inside the deleted region; concretely, for
"5M10D5M" with start 0 and requested genomic position 7 the walk ends at
genomic position 15 — strictly past 7 — and returns transcript position 5. -/
theorem claim_C6 :
    (∀ (len : Nat) (op : Char) (rest : List (Nat × Char)) (p g t : Int),
        (op = 'D' ∨ op = 'N') → g < p →
        convertLoop ((len, op) :: rest) p true g t =
          convertLoop rest p true (g + (len : Int)) t) ∧
    convertLoop (orientedSegs "5M10D5M" "forward") 7 true 0 0 = (15, 5) ∧
    get_converted_position ⟨"chr1", 0, "5M10D5M", "forward"⟩ 7 true = 5 ∧
    7 < (convertLoop (orientedSegs "5M10D5M" "forward") 7 true 0 0).1 := by
  refine ⟨?_, rfl, rfl, by decide⟩
  intro len op rest p g t hop hgp
  have hmx : ¬(op = 'M' ∨ op = 'X') := by
    rcases hop with h | h <;> subst h <;> decide
  simp only [convertLoop, eq_self_iff_true, if_true]
  rw [if_neg (by omega), if_neg hmx, if_pos hop]

/-- Witness for C6's unconditional-advance conjunct at a concrete input. -/
theorem claim_C6_witness :
    convertLoop [(3, 'D')] 5 true 0 0 = convertLoop [] 5 true (0 + (3 : Int)) 0 :=
  claim_C6.1 3 'D' [] 5 0 0 (Or.inl rfl) (by decide)

/-- C7 counterexample: for "5M3D" with start 0 in the transcript-to-genomic
direction, requested position 5 is at the total source-coordinate length
(5), yet the result is 5, not the fully-accumulated genomic position 8: the
trailing deletion is cut off by the early exit, so "at or beyond" is too
strong. -/
theorem claim_C7_counterexample :
    0 + srcLen false (orientedSegs "5M3D" "forward") ≤ (5 : Int) ∧
    get_converted_position ⟨"chr1", 0, "5M3D", "forward"⟩ 5 false ≠
      (accumAll (orientedSegs "5M3D" "forward") 0 0).1 := by
  decide

/-- C7 (amended): requesting a position STRICTLY beyond the source-side end
of the walk (start-side origin plus total source-coordinate length) makes
the conversion consume every segment in full and return the
fully-accumulated position in the opposite coordinate space; no error is
possible (the walk is a total function). -/
theorem claim_C7 (info : TranscriptInfo) (sfg : Bool) (p : Int)
    (h : (if sfg then info.start else 0)
        + srcLen sfg (orientedSegs info.cigar info.orientation) < p) :
    get_converted_position info p sfg =
      if sfg then (accumAll (orientedSegs info.cigar info.orientation) info.start 0).2
      else (accumAll (orientedSegs info.cigar info.orientation) info.start 0).1 := by
  simp only [get_converted_position]
  rw [convertLoop_exhaust (orientedSegs info.cigar info.orientation) sfg
    info.start 0 p h]

/-- Witness for C7 at a concrete transcript, just past the source end. -/
theorem claim_C7_witness :
    get_converted_position ⟨"chr1", 0, "5M3D", "forward"⟩ 6 false =
      (accumAll (orientedSegs "5M3D" "forward") 0 0).1 :=
  claim_C7 ⟨"chr1", 0, "5M3D", "forward"⟩ false 6 (by decide)

/-- C8: parsing extracts exactly the left-to-right occurrences of a digit
run followed by one of M, X, D, I, N — a well-formed token concatenation
parses to exactly its tokens, a non-digit block is silently excluded, and
on a mixed string only the matching substrings survive (parsing is a total
function, so no input raises an error). -/
theorem claim_C8 :
    (∀ toks : List (List Char × Char),
        (∀ tk ∈ toks,
          tk.1 ≠ [] ∧ (∀ c ∈ tk.1, c.isDigit = true) ∧ isCigarOp tk.2 = true) →
        cigar_findallL (renderTokens toks) = toks) ∧
    (∀ junk l : List Char, (∀ c ∈ junk, c.isDigit = false) →
        cigar_findallL (junk ++ l) = cigar_findallL l) ∧
    cigar_findall "12ab3M?40X1ID" = [(['3'], 'M'), (['4', '0'], 'X'), (['1'], 'I')] :=
  ⟨cigar_findallL_renderTokens, cigar_findallL_junk, by decide⟩

/-- Witness for C8's extraction conjunct at a concrete token list. -/
theorem claim_C8_witness :
    cigar_findallL (renderTokens [(['1', '0'], 'M')]) = [(['1', '0'], 'M')] :=
  claim_C8.1 [(['1', '0'], 'M')] (by decide)

/-- C9: loading two transcript rows with the same name fails with the
duplicate-transcript error, a query naming an unregistered transcript fails
with the unknown-transcript error (a constructor of the query-side error
type, distinct from every load-time error), and in both pipelines an error
on a row prefix aborts the whole run regardless of the rows that follow. -/
theorem claim_C9 :
    (∀ (rows rest : List (List String)) (acc : List (String × TranscriptInfo))
        (e : LoadError),
        get_transcripts_dict acc rows = .error e →
        get_transcripts_dict acc (rows ++ rest) = .error e) ∧
    get_transcripts_dict []
        [["TR1", "chr1", "100", "10M"], ["TR1", "chr2", "200", "5M"]] =
      .error .duplicateTranscript ∧
    (∀ (rows rest : List (List String)) (tds : List (String × TranscriptInfo))
        (sfg : Bool) (e : QueryError),
        processQueries tds sfg rows = .error e →
        processQueries tds sfg (rows ++ rest) = .error e) ∧
    processQueries [("TR1", ⟨"chr1", 100, "10M", "forward"⟩)] false [["TR2", "4"]] =
      .error (.unknownTranscript "TR2") :=
  ⟨get_transcripts_dict_failfast, rfl, processQueries_failfast, rfl⟩

/-- Witness for C9's fail-fast conjunct: a duplicate pair followed by a
valid row still aborts with the duplicate error. -/
theorem claim_C9_witness :
    get_transcripts_dict []
        ([["TR1", "chr1", "100", "10M"], ["TR1", "chr2", "200", "5M"]] ++
          [["TR3", "chr1", "0", "5M"]]) =
      .error .duplicateTranscript :=
  claim_C9.1 [["TR1", "chr1", "100", "10M"], ["TR1", "chr2", "200", "5M"]]
    [["TR3", "chr1", "0", "5M"]] [] .duplicateTranscript rfl

/-- C10: the conversion accepts any integer requested position; for every
requested position at most 0 in the transcript-to-genomic direction the
result is exactly the genomic start, for every requested position at most
the genomic start in the genomic-to-transcript direction the result is
exactly 0, and the query validation parses a negative position without
complaint. -/
theorem claim_C10 :
    (∀ (info : TranscriptInfo) (p : Int), p ≤ 0 →
        get_converted_position info p false = info.start) ∧
    (∀ (info : TranscriptInfo) (p : Int), p ≤ info.start →
        get_converted_position info p true = 0) ∧
    pyInt? "-5" = some (-5) ∧
    processQuery [("TR1", ⟨"chr1", 10, "5M", "forward"⟩)] false ["TR1", "-5"] =
      .ok (["TR1", "-5"], "chr1", 10) := by
  refine ⟨?_, ?_, by decide, rfl⟩
  · intro info p hp
    simp only [get_converted_position]
    rw [convertLoop_stop (orientedSegs info.cigar info.orientation) p false
      info.start 0 (by simpa using hp)]
    rfl
  · intro info p hp
    simp only [get_converted_position]
    rw [convertLoop_stop (orientedSegs info.cigar info.orientation) p true
      info.start 0 (by simpa using hp)]
    rfl

/-- Witness for C10 at a concrete transcript and negative position. -/
theorem claim_C10_witness :
    get_converted_position ⟨"chr1", 7, "5M", "forward"⟩ (-3) false = 7 :=
  claim_C10.1 ⟨"chr1", 7, "5M", "forward"⟩ (-3) (by decide)

end CoordTrans
